import Mathlib

/-!
Verification of the streaming chat-completion response handler
(`chatCompletionHandler` in `src/lib/components/playground/Chat.svelte`).

The handler is an async function over mutable component state.  We embed it
as a pure function from its inputs (the selected model id, the known model
list, the system prompt, the conversation turns, the response `ok` flag, the
sequence of chunks delivered by the stream reader, and the per-read value of
the `stopResponseFlag`) to an explicit result record collecting every
observable effect: toast notifications, the outgoing request payload (if
issued), the final conversation turns, the abort calls on the controller,
the number of parse errors logged, and the final value of `selectedModelId`.

DOM side effects (textarea resizing, scrolling) and `await tick()` are
rendering concerns with no bearing on the state tracked here; they are not
modelled.  The bound textarea element is assumed present, as it is in the
rendered component.
-/

/-- A known model, as stored in the `$models` store (only the fields the
handler reads). -/
structure ModelEntry where
  id : String
  name : String
deriving DecidableEq, Repr

/-- One conversation turn: `{ role, content }`. -/
structure Turn where
  role : String
  content : String
deriving DecidableEq, Repr

/-- One line of the decoded stream, as the handler classifies it.  The
source works on strings: it skips `''`, compares against the literal
`'data: [DONE]'`, and otherwise strips a leading `'data: '` and runs
`JSON.parse` followed by the access `data.choices[0].delta.content`.  We
embed the line at the granularity of that classification:

* `empty` — the line `''` (skipped by `if (line !== '')`);
* `doneSentinel` — the literal line `data: [DONE]`;
* `frag c` — a line whose stripped text parses as JSON and on which the
  access `choices[0].delta` succeeds; `c` is the `content` field of the
  delta, `none` when the field is absent (JavaScript `undefined`);
* `malformed` — a line on which `JSON.parse` or the subsequent field
  access throws. -/
inductive Line where
  | empty
  | doneSentinel
  | frag (content : Option String)
  | malformed
deriving DecidableEq, Repr

/-- Modelled from the spec: the transport (`splitStream` in `$lib/utils`,
not under `src/`) delivers the response body "split into newline-delimited
chunks"; the loop then "split[s] the chunk into individual lines", so a
chunk is a list of lines.  One `Chunk` is one `value` yielded by
`reader.read()`, already split at `'\n'` as `value.split('\n')` does. -/
abbrev Chunk := List Line

/-- The outgoing body of the `chatCompletion` call. -/
structure Payload where
  model : String
  stream : Bool
  messages : List Turn
deriving DecidableEq, Repr

/-- Every externally observable effect of one run of the handler. -/
structure HandlerResult where
  toasts : List String
  request : Option Payload
  messages : List Turn
  aborts : List String
  parseErrors : Nat
  selectedModelId : String
deriving Repr

/-- The `for (const line of lines)` body inside the `try` block
(Chat.svelte lines 188-214).  `content` is `responseMessage.content`,
`errors` counts `console.log(error)` calls from the `catch`.  Because the
`try`/`catch` wraps the whole `for` loop, a throwing line ends the
processing of the remaining lines of the same chunk: the `malformed` case
returns at once, logging one error. -/
def processLines (content : String) (errors : Nat) : List Line → String × Nat
  | [] => (content, errors)
  | .empty :: rest => processLines content errors rest
  | .doneSentinel :: rest => processLines content errors rest
  | .malformed :: _ => (content, errors + 1)
  | .frag c :: rest =>
      if content = "" ∧ c = some "\n" then
        processLines content errors rest
      else
        processLines (content ++ c.getD "") errors rest

/-- The `while (true)` read loop (Chat.svelte lines 178-220).  `stop i`
is the value of `stopResponseFlag` observed right after the `i`-th
`reader.read()` (0-indexed); the list argument holds the chunks the
reader has yet to deliver, and `done` is its exhaustion.  The loop checks
`done || stopResponseFlag`; when the flag is set it calls
`controller.abort('User: Stop Response')` and breaks.  Returns the final
content, the number of logged parse errors, and the list of abort
reasons. -/
def runLoop (stop : Nat → Bool) : Nat → String → Nat → List Chunk → String × Nat × List String
  | i, content, errors, [] =>
      if stop i then (content, errors, ["User: Stop Response"])
      else (content, errors, [])
  | i, content, errors, chunk :: rest =>
      if stop i then (content, errors, ["User: Stop Response"])
      else
        let step := processLines content errors chunk
        runLoop stop (i + 1) step.1 step.2 rest

/-- The body of the outgoing request (Chat.svelte lines 141-153):
`[ system ? {role:'system',content:system} : undefined, ...messages ]
.filter((message) => message)` — the empty system prompt is the falsy
`undefined` slot removed by the filter. -/
def buildMessages (system : String) (messages : List Turn) : List Turn :=
  ((if system ≠ "" then some (Turn.mk "system" system) else none)
      :: messages.map some).filterMap id

/-- Selection of `responseMessage` (Chat.svelte lines 157-167): reuse the
last turn when `messages.at(-1)?.role === 'assistant'`, otherwise push a
fresh empty assistant turn. -/
def appendTarget (messages : List Turn) : List Turn :=
  if (messages.getLast?).map Turn.role = some "assistant" then messages
  else messages ++ [Turn.mk "assistant" ""]

/-- The embedding of `chatCompletionHandler` (Chat.svelte lines 127-222).
`resOk` is `res && res.ok`; `chunks` are the values the reader will
deliver; `stop` gives the `stopResponseFlag` value at each read. -/
def chatCompletionHandler (selectedModelId : String) (models : List ModelEntry)
    (system : String) (messages : List Turn) (resOk : Bool)
    (chunks : List Chunk) (stop : Nat → Bool) : HandlerResult :=
  if selectedModelId = "" then
    { toasts := ["Please select a model."], request := none, messages := messages,
      aborts := [], parseErrors := 0, selectedModelId := selectedModelId }
  else
    match models.find? (fun m => m.id == selectedModelId) with
    | none =>
        { toasts := [], request := none, messages := messages,
          aborts := [], parseErrors := 0, selectedModelId := "" }
    | some model =>
        let payload : Payload :=
          { model := model.id, stream := true,
            messages := buildMessages system messages }
        let msgs1 := appendTarget messages
        let initContent := ((msgs1.getLast?).map Turn.content).getD ""
        if resOk then
          let out := runLoop stop 0 initContent 0 chunks
          { toasts := [], request := some payload,
            messages := msgs1.dropLast ++ [Turn.mk "assistant" out.1],
            aborts := out.2.2, parseErrors := out.2.1,
            selectedModelId := selectedModelId }
        else
          { toasts := [], request := some payload, messages := msgs1,
            aborts := [], parseErrors := 0, selectedModelId := selectedModelId }

/-- Spec-side description of one chunk (for the ordering property): the
delta fragments of its valid event lines in order, cut off at the first
malformed line (which ends processing of the chunk). -/
def chunkFragments : List Line → List (Option String)
  | [] => []
  | .frag c :: rest => c :: chunkFragments rest
  | .malformed :: _ => []
  | .empty :: rest => chunkFragments rest
  | .doneSentinel :: rest => chunkFragments rest

/-- Spec-side description of one chunk under the original claim: the delta
fragments of ALL valid event lines, malformed lines merely skipped. -/
def chunkFragmentsAll : List Line → List (Option String)
  | [] => []
  | .frag c :: rest => c :: chunkFragmentsAll rest
  | .malformed :: rest => chunkFragmentsAll rest
  | .empty :: rest => chunkFragmentsAll rest
  | .doneSentinel :: rest => chunkFragmentsAll rest

/-- Spec-side: all fragments of the stream in delivery order (with the
chunk-level cutoff at malformed lines). -/
def streamFragments (chunks : List Chunk) : List (Option String) :=
  (chunks.map chunkFragments).flatten

/-- Spec-side: all fragments of the stream under the original claim (no
chunk-level cutoff). -/
def streamFragmentsAll (chunks : List Chunk) : List (Option String) :=
  (chunks.map chunkFragmentsAll).flatten

/-- Spec-side accumulator: concatenate fragments in order, applying the
leading-newline rule (a fragment that is exactly `"\n"` is elided while
the accumulated content is still empty; an absent fragment contributes
the empty string). -/
def concatElide (content : String) : List (Option String) → String
  | [] => content
  | c :: rest =>
      if content = "" ∧ c = some "\n" then concatElide content rest
      else concatElide (content ++ c.getD "") rest

/-! ### Helper lemmas about the loop -/

/-- Processing lines only ever appends to the accumulated content. -/
theorem processLines_extends (ls : List Line) (c : String) (e : Nat) :
    ∃ s, (processLines c e ls).1 = c ++ s := by
  induction ls generalizing c e with
  | nil => exact ⟨"", by simp [processLines]⟩
  | cons l rest ih =>
    cases l with
    | empty => simp only [processLines]; exact ih c e
    | doneSentinel => simp only [processLines]; exact ih c e
    | malformed => exact ⟨"", by simp [processLines]⟩
    | frag d =>
      by_cases h : c = "" ∧ d = some "\n"
      · simp only [processLines, if_pos h]; exact ih c e
      · obtain ⟨s, hs⟩ := ih (c ++ d.getD "") e
        exact ⟨d.getD "" ++ s, by
          simp only [processLines, if_neg h]
          rw [hs, String.append_assoc]⟩

/-- The read loop only ever appends to the accumulated content. -/
theorem runLoop_extends (chunks : List Chunk) (stop : Nat → Bool) (i : Nat)
    (c : String) (e : Nat) :
    ∃ s, (runLoop stop i c e chunks).1 = c ++ s := by
  induction chunks generalizing i c e with
  | nil =>
    by_cases h : stop i = true
    · exact ⟨"", by simp [runLoop, h]⟩
    · exact ⟨"", by simp [runLoop, h]⟩
  | cons chunk rest ih =>
    cases hstop : stop i with
    | true => exact ⟨"", by simp [runLoop, hstop]⟩
    | false =>
      obtain ⟨s1, hs1⟩ := processLines_extends chunk c e
      obtain ⟨s2, hs2⟩ :=
        ih (i + 1) (processLines c e chunk).1 (processLines c e chunk).2
      refine ⟨s1 ++ s2, ?_⟩
      have hstep : runLoop stop i c e (chunk :: rest)
          = runLoop stop (i + 1) (processLines c e chunk).1 (processLines c e chunk).2 rest := by
        simp [runLoop, hstop]
      rw [hstep, hs2, hs1, String.append_assoc]

/-- When the stop flag is observed set, the loop aborts at once with the
fixed reason, leaving content and error count untouched. -/
theorem runLoop_stopped (chunks : List Chunk) (stop : Nat → Bool) (i : Nat)
    (c : String) (e : Nat) (h : stop i = true) :
    runLoop stop i c e chunks = (c, e, ["User: Stop Response"]) := by
  cases chunks <;> simp [runLoop, h]

/-- A run with the stop flag never set records no abort call. -/
theorem runLoop_noStop_aborts (chunks : List Chunk) (i : Nat) (c : String) (e : Nat) :
    (runLoop (fun _ => false) i c e chunks).2.2 = [] := by
  induction chunks generalizing i c e with
  | nil => simp [runLoop]
  | cons chunk rest ih => simpa [runLoop] using ih (i + 1) _ _

/-- The content produced by one pass over a chunk's lines is the spec-side
concatenation (with the leading-newline rule) of the chunk's fragments. -/
theorem processLines_content_eq (ls : List Line) (c : String) (e : Nat) :
    (processLines c e ls).1 = concatElide c (chunkFragments ls) := by
  induction ls generalizing c e with
  | nil => simp [processLines, chunkFragments, concatElide]
  | cons l rest ih =>
    cases l with
    | empty => simp only [processLines, chunkFragments]; exact ih c e
    | doneSentinel => simp only [processLines, chunkFragments]; exact ih c e
    | malformed => simp [processLines, chunkFragments, concatElide]
    | frag d =>
      by_cases h : c = "" ∧ d = some "\n"
      · simp only [processLines, chunkFragments, concatElide, if_pos h]
        exact ih c e
      · simp only [processLines, chunkFragments, concatElide, if_neg h]
        exact ih (c ++ d.getD "") e

/-- Concatenation with elision splits over list append. -/
theorem concatElide_append (xs ys : List (Option String)) (c : String) :
    concatElide c (xs ++ ys) = concatElide (concatElide c xs) ys := by
  induction xs generalizing c with
  | nil => simp [concatElide]
  | cons d rest ih =>
    by_cases h : c = "" ∧ d = some "\n"
    · simp only [List.cons_append, concatElide, if_pos h]
      exact ih c
    · simp only [List.cons_append, concatElide, if_neg h]
      exact ih (c ++ d.getD "")

/-- With the stop flag never set, the loop's final content is the spec-side
concatenation of all the stream's fragments. -/
theorem runLoop_noStop_content (chunks : List Chunk) (i : Nat) (c : String) (e : Nat) :
    (runLoop (fun _ => false) i c e chunks).1 = concatElide c (streamFragments chunks) := by
  induction chunks generalizing i c e with
  | nil => simp [runLoop, streamFragments, concatElide]
  | cons chunk rest ih =>
    have hstep : runLoop (fun _ => false) i c e (chunk :: rest)
        = runLoop (fun _ => false) (i + 1)
            (processLines c e chunk).1 (processLines c e chunk).2 rest := by
      simp [runLoop]
    rw [hstep, ih (i + 1) _ _, processLines_content_eq]
    simp only [streamFragments, List.map_cons, List.flatten_cons]
    rw [concatElide_append]

/-- If the stop flag is observed false at reads `i .. i+N` and true at read
`i+N+1`, the loop's content and error count are those of a stop-free run
over the first `N+1` chunks, and exactly one abort is recorded. -/
theorem runLoop_stop_after (N : Nat) (stop : Nat → Bool) (chunks : List Chunk)
    (i : Nat) (c : String) (e : Nat)
    (hstop : ∀ j, j ≤ N → stop (i + j) = false)
    (hstopN : stop (i + (N + 1)) = true)
    (hlen : N + 1 ≤ chunks.length) :
    runLoop stop i c e chunks
      = ((runLoop (fun _ => false) i c e (chunks.take (N + 1))).1,
         (runLoop (fun _ => false) i c e (chunks.take (N + 1))).2.1,
         ["User: Stop Response"]) := by
  induction N generalizing i c e chunks with
  | zero =>
    cases chunks with
    | nil => simp at hlen
    | cons chunk rest =>
      have h0 : stop i = false := by simpa using hstop 0 (Nat.le_refl 0)
      have h1 : stop (i + 1) = true := hstopN
      have hL : runLoop stop i c e (chunk :: rest)
          = runLoop stop (i + 1)
              (processLines c e chunk).1 (processLines c e chunk).2 rest := by
        simp [runLoop, h0]
      rw [hL, runLoop_stopped _ _ _ _ _ h1]
      simp [runLoop]
  | succ N ih =>
    cases chunks with
    | nil => simp at hlen
    | cons chunk rest =>
      have h0 : stop i = false := by simpa using hstop 0 (Nat.zero_le _)
      have hL : runLoop stop i c e (chunk :: rest)
          = runLoop stop (i + 1)
              (processLines c e chunk).1 (processLines c e chunk).2 rest := by
        simp [runLoop, h0]
      have hR : runLoop (fun _ => false) i c e ((chunk :: rest).take (N + 1 + 1))
          = runLoop (fun _ => false) (i + 1)
              (processLines c e chunk).1 (processLines c e chunk).2
              (rest.take (N + 1)) := by
        simp [runLoop, List.take]
      rw [hL, hR]
      have hstop' : ∀ j, j ≤ N → stop (i + 1 + j) = false := by
        intro j hj
        have h' := hstop (j + 1) (by omega)
        have harith : i + 1 + j = i + (j + 1) := by omega
        rw [harith]
        exact h'
      have hstopN' : stop (i + 1 + (N + 1)) = true := by
        have harith : i + 1 + (N + 1) = i + (N + 1 + 1) := by omega
        rw [harith]
        exact hstopN
      have hlen' : N + 1 ≤ rest.length := by
        simp only [List.length_cons] at hlen
        omega
      apply ih
      exacts [hstop', hstopN', hlen']

/-- The content held after reading `n + 1` chunks extends the content held
after reading `n` chunks: the assistant text only ever grows. -/
theorem runLoop_take_mono (n : Nat) (chunks : List Chunk) (stop : Nat → Bool)
    (i : Nat) (c : String) (e : Nat) :
    ∃ s, (runLoop stop i c e (chunks.take (n + 1))).1
        = (runLoop stop i c e (chunks.take n)).1 ++ s := by
  induction n generalizing i c e chunks with
  | zero =>
    cases chunks with
    | nil => exact ⟨"", by cases hstop : stop i <;> simp [runLoop, hstop]⟩
    | cons chunk rest =>
      cases hstop : stop i with
      | true => exact ⟨"", by simp [runLoop, hstop]⟩
      | false =>
        obtain ⟨s, hs⟩ := processLines_extends chunk c e
        exact ⟨s, by cases h2 : stop (i + 1) <;> simp [runLoop, hstop, h2, hs]⟩
  | succ n ih =>
    cases chunks with
    | nil => exact ⟨"", by cases hstop : stop i <;> simp [runLoop, hstop]⟩
    | cons chunk rest =>
      cases hstop : stop i with
      | true => exact ⟨"", by simp [runLoop, hstop]⟩
      | false =>
        obtain ⟨s, hs⟩ := ih rest (i + 1) (processLines c e chunk).1 (processLines c e chunk).2
        exact ⟨s, by simp only [List.take_succ_cons, runLoop, hstop,
          Bool.false_eq_true, if_false]; exact hs⟩

/-! ### Helper lemmas about the handler's surrounding code -/

/-- The request body equals the turn list with the system turn prepended
exactly when the system text is non-empty. -/
theorem buildMessages_eq (system : String) (messages : List Turn) :
    buildMessages system messages
      = if system = "" then messages else Turn.mk "system" system :: messages := by
  by_cases h : system = "" <;> simp [buildMessages, h]

/-- The model found by `find?` carries the selected id. -/
theorem find?_model_id (models : List ModelEntry) (selId : String) (m : ModelEntry)
    (hm : models.find? (fun x => x.id == selId) = some m) : m.id = selId := by
  simpa using List.find?_some hm

/-- When the last turn is not an assistant turn, a fresh empty assistant
turn is appended. -/
theorem appendTarget_fresh (messages : List Turn)
    (h : (messages.getLast?).map Turn.role ≠ some "assistant") :
    appendTarget messages = messages ++ [Turn.mk "assistant" ""] := by
  simp [appendTarget, h]

/-- When the last turn is an assistant turn, it is reused. -/
theorem appendTarget_reuse (messages : List Turn)
    (h : (messages.getLast?).map Turn.role = some "assistant") :
    appendTarget messages = messages := by
  simp [appendTarget, h]

/-- Unfolding: the empty-model-id branch (Chat.svelte lines 128-131). -/
theorem chatCompletionHandler_emptyId (models : List ModelEntry) (system : String)
    (messages : List Turn) (resOk : Bool) (chunks : List Chunk) (stop : Nat → Bool) :
    chatCompletionHandler "" models system messages resOk chunks stop
      = { toasts := ["Please select a model."], request := none, messages := messages,
          aborts := [], parseErrors := 0, selectedModelId := "" } := by
  simp [chatCompletionHandler]

/-- Unfolding: the unresolved-model branch (Chat.svelte lines 133-137). -/
theorem chatCompletionHandler_unknownId (selId : String) (models : List ModelEntry)
    (system : String) (messages : List Turn) (resOk : Bool) (chunks : List Chunk)
    (stop : Nat → Bool) (hsel : selId ≠ "")
    (hnone : models.find? (fun x => x.id == selId) = none) :
    chatCompletionHandler selId models system messages resOk chunks stop
      = { toasts := [], request := none, messages := messages,
          aborts := [], parseErrors := 0, selectedModelId := "" } := by
  simp [chatCompletionHandler, hsel, hnone]

/-- Unfolding: the streaming branch (model resolved, response ok). -/
theorem chatCompletionHandler_ok (selId : String) (models : List ModelEntry)
    (m : ModelEntry) (system : String) (messages : List Turn) (chunks : List Chunk)
    (stop : Nat → Bool) (hsel : selId ≠ "")
    (hm : models.find? (fun x => x.id == selId) = some m) :
    chatCompletionHandler selId models system messages true chunks stop
      = { toasts := [],
          request := some { model := m.id, stream := true,
                            messages := buildMessages system messages },
          messages := (appendTarget messages).dropLast
              ++ [Turn.mk "assistant"
                    (runLoop stop 0
                      ((((appendTarget messages).getLast?).map Turn.content).getD "")
                      0 chunks).1],
          aborts := (runLoop stop 0
                      ((((appendTarget messages).getLast?).map Turn.content).getD "")
                      0 chunks).2.2,
          parseErrors := (runLoop stop 0
                      ((((appendTarget messages).getLast?).map Turn.content).getD "")
                      0 chunks).2.1,
          selectedModelId := selId } := by
  simp [chatCompletionHandler, hsel, hm]

/-- Unfolding: the non-ok-response branch (the whole `if (res && res.ok)`
body is skipped). -/
theorem chatCompletionHandler_notOk (selId : String) (models : List ModelEntry)
    (m : ModelEntry) (system : String) (messages : List Turn) (chunks : List Chunk)
    (stop : Nat → Bool) (hsel : selId ≠ "")
    (hm : models.find? (fun x => x.id == selId) = some m) :
    chatCompletionHandler selId models system messages false chunks stop
      = { toasts := [],
          request := some { model := m.id, stream := true,
                            messages := buildMessages system messages },
          messages := appendTarget messages,
          aborts := [], parseErrors := 0, selectedModelId := selId } := by
  simp [chatCompletionHandler, hsel, hm]

/-! ### Claims -/

/-- C3, counterexample: with a non-empty model id that matches no known
model, the handler issues no request but surfaces NO notification (the
code silently resets the selection), so "exactly one user-facing error
notification" fails on this branch. -/
theorem c3_counterexample :
    (chatCompletionHandler "m" [] "" [] true [] (fun _ => false)).request = none ∧
    (chatCompletionHandler "m" [] "" [] true [] (fun _ => false)).toasts.length ≠ 1 := by
  decide

/-- C3 (amended): if the selected model id is empty, the handler issues no
request and surfaces exactly the one notification "Please select a
model."; if the id is non-empty but unknown, the handler issues no request
and surfaces no notification at all. -/
theorem c3_precondition_gating (selId : String) (models : List ModelEntry)
    (system : String) (messages : List Turn) (resOk : Bool) (chunks : List Chunk)
    (stop : Nat → Bool) :
    ((chatCompletionHandler "" models system messages resOk chunks stop).request = none ∧
      (chatCompletionHandler "" models system messages resOk chunks stop).toasts
        = ["Please select a model."]) ∧
    (selId ≠ "" → models.find? (fun x => x.id == selId) = none →
      (chatCompletionHandler selId models system messages resOk chunks stop).request = none ∧
      (chatCompletionHandler selId models system messages resOk chunks stop).toasts = []) := by
  constructor
  · rw [chatCompletionHandler_emptyId]
    exact ⟨rfl, rfl⟩
  · intro hsel hnone
    rw [chatCompletionHandler_unknownId _ _ _ _ _ _ _ hsel hnone]
    exact ⟨rfl, rfl⟩

/-- Witness for the amended C3 at concrete inputs. -/
theorem c3_precondition_gating_witness :
    ((chatCompletionHandler "" [] "" [] true [] (fun _ => false)).request = none ∧
      (chatCompletionHandler "" [] "" [] true [] (fun _ => false)).toasts
        = ["Please select a model."]) ∧
    ((chatCompletionHandler "m" [] "" [] true [] (fun _ => false)).request = none ∧
      (chatCompletionHandler "m" [] "" [] true [] (fun _ => false)).toasts = []) :=
  ⟨(c3_precondition_gating "m" [] "" [] true [] (fun _ => false)).1,
   (c3_precondition_gating "m" [] "" [] true [] (fun _ => false)).2 (by decide) rfl⟩

/-- C9: a non-empty but unknown model id makes the handler reset the
selected id to the empty string and return with no request and no
notification, the turns untouched. -/
theorem c9_unknown_model_reset (selId : String) (models : List ModelEntry)
    (system : String) (messages : List Turn) (resOk : Bool) (chunks : List Chunk)
    (stop : Nat → Bool) (hsel : selId ≠ "")
    (hnone : models.find? (fun x => x.id == selId) = none) :
    (chatCompletionHandler selId models system messages resOk chunks stop).request = none ∧
    (chatCompletionHandler selId models system messages resOk chunks stop).toasts = [] ∧
    (chatCompletionHandler selId models system messages resOk chunks stop).selectedModelId
      = "" ∧
    (chatCompletionHandler selId models system messages resOk chunks stop).messages
      = messages := by
  rw [chatCompletionHandler_unknownId _ _ _ _ _ _ _ hsel hnone]
  exact ⟨rfl, rfl, rfl, rfl⟩

/-- Witness for C9 at concrete inputs. -/
theorem c9_unknown_model_reset_witness :
    (chatCompletionHandler "ghost" [ModelEntry.mk "m" "M"] "" [] true []
        (fun _ => false)).request = none ∧
    (chatCompletionHandler "ghost" [ModelEntry.mk "m" "M"] "" [] true []
        (fun _ => false)).toasts = [] ∧
    (chatCompletionHandler "ghost" [ModelEntry.mk "m" "M"] "" [] true []
        (fun _ => false)).selectedModelId = "" ∧
    (chatCompletionHandler "ghost" [ModelEntry.mk "m" "M"] "" [] true []
        (fun _ => false)).messages = [] :=
  c9_unknown_model_reset "ghost" [ModelEntry.mk "m" "M"] "" [] true []
    (fun _ => false) (by decide) (by decide)

/-- C8: whenever the model precondition holds, the outgoing payload is the
selected model id, the streaming flag `true`, and the turn sequence with
the system turn prepended exactly when the system text is non-empty (the
falsy `undefined` slot being filtered out). -/
theorem c8_request_payload (selId : String) (models : List ModelEntry) (m : ModelEntry)
    (system : String) (messages : List Turn) (resOk : Bool) (chunks : List Chunk)
    (stop : Nat → Bool) (hsel : selId ≠ "")
    (hm : models.find? (fun x => x.id == selId) = some m) :
    (chatCompletionHandler selId models system messages resOk chunks stop).request
      = some { model := selId, stream := true,
               messages := if system = "" then messages
                           else Turn.mk "system" system :: messages } := by
  have hid := find?_model_id models selId m hm
  cases resOk with
  | false =>
    rw [chatCompletionHandler_notOk _ _ m _ _ _ _ hsel hm]
    simp [buildMessages_eq, hid]
  | true =>
    rw [chatCompletionHandler_ok _ _ m _ _ _ _ hsel hm]
    simp [buildMessages_eq, hid]

/-- Witness for C8 at concrete inputs. -/
theorem c8_request_payload_witness :
    (chatCompletionHandler "m" [ModelEntry.mk "m" "M"] "sys"
        [Turn.mk "user" "hi"] true [] (fun _ => false)).request
      = some { model := "m", stream := true,
               messages := [Turn.mk "system" "sys", Turn.mk "user" "hi"] } := by
  have h := c8_request_payload "m" [ModelEntry.mk "m" "M"] (ModelEntry.mk "m" "M")
    "sys" [Turn.mk "user" "hi"] true [] (fun _ => false) (by decide) rfl
  simpa using h

/-- C6: with a non-ok response no stream reading occurs — the result does
not depend on the chunks or the stop flag — and the assistant turn, when
one was appended, remains with empty content; nothing is aborted and no
parse error is logged. -/
theorem c6_non_ok_short_circuit (selId : String) (models : List ModelEntry)
    (m : ModelEntry) (system : String) (messages : List Turn) (chunks : List Chunk)
    (stop : Nat → Bool) (hsel : selId ≠ "")
    (hm : models.find? (fun x => x.id == selId) = some m) :
    (chatCompletionHandler selId models system messages false chunks stop
        = chatCompletionHandler selId models system messages false [] (fun _ => false)) ∧
    (chatCompletionHandler selId models system messages false chunks stop).messages
        = appendTarget messages ∧
    ((messages.getLast?).map Turn.role ≠ some "assistant" →
      (chatCompletionHandler selId models system messages false chunks stop).messages.getLast?
        = some (Turn.mk "assistant" "")) ∧
    (chatCompletionHandler selId models system messages false chunks stop).parseErrors = 0 ∧
    (chatCompletionHandler selId models system messages false chunks stop).aborts = [] := by
  rw [chatCompletionHandler_notOk _ _ m _ _ _ _ hsel hm,
    chatCompletionHandler_notOk _ _ m _ _ _ _ hsel hm]
  refine ⟨rfl, rfl, ?_, rfl, rfl⟩
  intro hfresh
  rw [appendTarget_fresh _ hfresh]
  exact List.getLast?_concat ..

/-- Witness for C6 at concrete inputs. -/
theorem c6_non_ok_short_circuit_witness :
    (chatCompletionHandler "m" [ModelEntry.mk "m" "M"] "" [Turn.mk "user" "hi"] false
        [[Line.frag (some "x")]] (fun _ => false)
      = chatCompletionHandler "m" [ModelEntry.mk "m" "M"] "" [Turn.mk "user" "hi"] false
        [] (fun _ => false)) ∧
    (chatCompletionHandler "m" [ModelEntry.mk "m" "M"] "" [Turn.mk "user" "hi"] false
        [[Line.frag (some "x")]] (fun _ => false)).messages
      = appendTarget [Turn.mk "user" "hi"] ∧
    (chatCompletionHandler "m" [ModelEntry.mk "m" "M"] "" [Turn.mk "user" "hi"] false
        [[Line.frag (some "x")]] (fun _ => false)).messages.getLast?
      = some (Turn.mk "assistant" "") ∧
    (chatCompletionHandler "m" [ModelEntry.mk "m" "M"] "" [Turn.mk "user" "hi"] false
        [[Line.frag (some "x")]] (fun _ => false)).parseErrors = 0 ∧
    (chatCompletionHandler "m" [ModelEntry.mk "m" "M"] "" [Turn.mk "user" "hi"] false
        [[Line.frag (some "x")]] (fun _ => false)).aborts = [] := by
  have h := c6_non_ok_short_circuit "m" [ModelEntry.mk "m" "M"] (ModelEntry.mk "m" "M")
    "" [Turn.mk "user" "hi"] [[Line.frag (some "x")]] (fun _ => false) (by decide) rfl
  exact ⟨h.1, h.2.1, h.2.2.1 (by decide), h.2.2.2.1, h.2.2.2.2⟩

/-- C7: the terminate sentinel line appends nothing and reaches no JSON
parsing — processing it is the identity on content and error count — and a
stream consisting solely of `data: [DONE]` ends with an empty assistant
turn and zero logged parse errors. -/
theorem c7_done_sentinel :
    (∀ (content : String) (errors : Nat) (rest : List Line),
        processLines content errors (Line.doneSentinel :: rest)
          = processLines content errors rest) ∧
    (chatCompletionHandler "m" [ModelEntry.mk "m" "M"] "" [] true [[Line.doneSentinel]]
        (fun _ => false)).messages = [Turn.mk "assistant" ""] ∧
    (chatCompletionHandler "m" [ModelEntry.mk "m" "M"] "" [] true [[Line.doneSentinel]]
        (fun _ => false)).parseErrors = 0 := by
  refine ⟨fun c e rest => rfl, ?_, ?_⟩ <;> decide

/-- C5: a fragment that is exactly one newline is skipped if and only if
the accumulated content is still empty — skipped (and absent from the
final content) when empty, appended and retained when non-empty — and in a
full run a first `"\n"` fragment is dropped while a later one after
non-empty content survives. -/
theorem c5_leading_newline (content : String) (errors : Nat) (rest : List Line) :
    (content = "" →
        processLines content errors (Line.frag (some "\n") :: rest)
          = processLines content errors rest) ∧
    (content ≠ "" →
        processLines content errors (Line.frag (some "\n") :: rest)
          = processLines (content ++ "\n") errors rest) ∧
    (chatCompletionHandler "m" [ModelEntry.mk "m" "M"] "" [] true
        [[Line.frag (some "\n"), Line.frag (some "hi"), Line.frag (some "\n")]]
        (fun _ => false)).messages = [Turn.mk "assistant" "hi\n"] := by
  refine ⟨?_, ?_, ?_⟩
  · intro h
    simp [processLines, h]
  · intro h
    simp [processLines, h]
  · decide

/-- Witness for C5 at concrete inputs. -/
theorem c5_leading_newline_witness :
    processLines "" 0 [Line.frag (some "\n")] = processLines "" 0 [] ∧
    processLines "x" 0 [Line.frag (some "\n")] = processLines ("x" ++ "\n") 0 [] :=
  ⟨(c5_leading_newline "" 0 []).1 rfl,
   (c5_leading_newline "x" 0 []).2.1 (by decide)⟩

/-- C4: if the stop flag is observed false through chunk `N` and true at
the read of chunk `N + 1`, the run applies exactly the content and errors
of the first `N + 1` chunks and records exactly one abort with the reason
string "User: Stop Response". -/
theorem c4_cancellation_boundary (N : Nat) (selId : String) (models : List ModelEntry)
    (m : ModelEntry) (system : String) (messages : List Turn) (chunks : List Chunk)
    (stop : Nat → Bool) (hsel : selId ≠ "")
    (hm : models.find? (fun x => x.id == selId) = some m)
    (hstop : ∀ j, j ≤ N → stop j = false)
    (hstopN : stop (N + 1) = true)
    (hlen : N + 1 ≤ chunks.length) :
    (chatCompletionHandler selId models system messages true chunks stop).aborts
        = ["User: Stop Response"] ∧
    (chatCompletionHandler selId models system messages true chunks stop).messages
        = (chatCompletionHandler selId models system messages true (chunks.take (N + 1))
            (fun _ => false)).messages ∧
    (chatCompletionHandler selId models system messages true chunks stop).parseErrors
        = (chatCompletionHandler selId models system messages true (chunks.take (N + 1))
            (fun _ => false)).parseErrors := by
  rw [chatCompletionHandler_ok _ _ m _ _ _ _ hsel hm,
    chatCompletionHandler_ok _ _ m _ _ _ _ hsel hm]
  have hrun := runLoop_stop_after N stop chunks 0
    ((((appendTarget messages).getLast?).map Turn.content).getD "") 0
    (fun j hj => by rw [Nat.zero_add]; exact hstop j hj)
    (by rw [Nat.zero_add]; exact hstopN) hlen
  rw [hrun]
  exact ⟨rfl, rfl, rfl⟩

/-- Witness for C4 at concrete inputs: the flag turns on after the first
chunk, so the second chunk's fragment is not applied. -/
theorem c4_cancellation_boundary_witness :
    (chatCompletionHandler "m" [ModelEntry.mk "m" "M"] "" [] true
        [[Line.frag (some "a")], [Line.frag (some "b")]] (fun j => decide (1 ≤ j))).aborts
        = ["User: Stop Response"] ∧
    (chatCompletionHandler "m" [ModelEntry.mk "m" "M"] "" [] true
        [[Line.frag (some "a")], [Line.frag (some "b")]] (fun j => decide (1 ≤ j))).messages
        = (chatCompletionHandler "m" [ModelEntry.mk "m" "M"] "" [] true
            ([[Line.frag (some "a")], [Line.frag (some "b")]].take 1)
            (fun _ => false)).messages ∧
    (chatCompletionHandler "m" [ModelEntry.mk "m" "M"] "" [] true
        [[Line.frag (some "a")], [Line.frag (some "b")]] (fun j => decide (1 ≤ j))).parseErrors
        = (chatCompletionHandler "m" [ModelEntry.mk "m" "M"] "" [] true
            ([[Line.frag (some "a")], [Line.frag (some "b")]].take 1)
            (fun _ => false)).parseErrors :=
  c4_cancellation_boundary 0 "m" [ModelEntry.mk "m" "M"] (ModelEntry.mk "m" "M") "" []
    [[Line.frag (some "a")], [Line.frag (some "b")]] (fun j => decide (1 ≤ j))
    (by decide) rfl
    (fun j hj => by
      have hj0 : j = 0 := Nat.le_zero.mp hj
      subst hj0
      rfl)
    rfl (by decide)

/-- C2, counterexample: with the invalid line and both valid lines in one
chunk, the fragment after the invalid line is NOT applied (the catch sits
outside the line loop), so the final content is "a", not the
concatenation "ab" the claim requires. -/
theorem c2_counterexample :
    (chatCompletionHandler "m" [ModelEntry.mk "m" "M"] "" [] true
        [[Line.frag (some "a"), Line.malformed, Line.frag (some "b")]]
        (fun _ => false)).messages = [Turn.mk "assistant" "a"] ∧
    (chatCompletionHandler "m" [ModelEntry.mk "m" "M"] "" [] true
        [[Line.frag (some "a"), Line.malformed, Line.frag (some "b")]]
        (fun _ => false)).messages ≠ [Turn.mk "assistant" ("a" ++ "b")] := by
  decide

/-- C2 (amended): an invalid line is caught and logged and the loop and
session continue, but processing of the remaining lines of the same chunk
is abandoned: fragments before the invalid line in its chunk and fragments
of later chunks are applied, the fragment after the invalid line in the
same chunk is skipped. -/
theorem c2_malformed_tolerance (a b c : String) (ha : a ≠ "") (ha2 : a ≠ "\n") :
    (chatCompletionHandler "m" [ModelEntry.mk "m" "M"] "" [] true
        [[Line.frag (some a), Line.malformed, Line.frag (some b)], [Line.frag (some c)]]
        (fun _ => false)).messages = [Turn.mk "assistant" (a ++ c)] ∧
    (chatCompletionHandler "m" [ModelEntry.mk "m" "M"] "" [] true
        [[Line.frag (some a), Line.malformed, Line.frag (some b)], [Line.frag (some c)]]
        (fun _ => false)).parseErrors = 1 ∧
    (chatCompletionHandler "m" [ModelEntry.mk "m" "M"] "" [] true
        [[Line.frag (some a), Line.malformed, Line.frag (some b)], [Line.frag (some c)]]
        (fun _ => false)).aborts = [] := by
  rw [chatCompletionHandler_ok "m" [ModelEntry.mk "m" "M"] (ModelEntry.mk "m" "M")
    _ _ _ _ (by decide) rfl]
  refine ⟨?_, ?_, ?_⟩ <;> simp [appendTarget, runLoop, processLines, ha, ha2]

/-- Witness for the amended C2 at concrete inputs. -/
theorem c2_malformed_tolerance_witness :
    (chatCompletionHandler "m" [ModelEntry.mk "m" "M"] "" [] true
        [[Line.frag (some "x"), Line.malformed, Line.frag (some "y")],
          [Line.frag (some "z")]]
        (fun _ => false)).messages = [Turn.mk "assistant" ("x" ++ "z")] ∧
    (chatCompletionHandler "m" [ModelEntry.mk "m" "M"] "" [] true
        [[Line.frag (some "x"), Line.malformed, Line.frag (some "y")],
          [Line.frag (some "z")]]
        (fun _ => false)).parseErrors = 1 ∧
    (chatCompletionHandler "m" [ModelEntry.mk "m" "M"] "" [] true
        [[Line.frag (some "x"), Line.malformed, Line.frag (some "y")],
          [Line.frag (some "z")]]
        (fun _ => false)).aborts = [] :=
  c2_malformed_tolerance "x" "y" "z" (by decide) (by decide)

/-- C1, counterexample: a chunk in which a malformed line precedes a valid
fragment line refutes the claim — the fragment "x" of the valid line never
reaches the content because the chunk-level catch abandons the rest of the
chunk, so the final content is empty rather than the concatenation of all
valid fragments. -/
theorem c1_counterexample :
    ((chatCompletionHandler "m" [ModelEntry.mk "m" "M"] "" [] true
        [[Line.malformed, Line.frag (some "x")]] (fun _ => false)).messages.getLast?).map
        Turn.content
      ≠ some (concatElide ""
          (streamFragmentsAll [[Line.malformed, Line.frag (some "x")]])) := by
  decide

/-- C1 (amended): for every chunk sequence, when the handler runs to
stream exhaustion on a fresh assistant turn the final assistant content is
the concatenation, in delivery order, of the delta fragments of the valid
event lines — excluding fragments elided by the leading-newline rule and
excluding lines that follow a malformed line within their own chunk;
absent content contributes the empty string. -/
theorem c1_ordering (selId : String) (models : List ModelEntry) (m : ModelEntry)
    (system : String) (messages : List Turn) (chunks : List Chunk)
    (hsel : selId ≠ "")
    (hm : models.find? (fun x => x.id == selId) = some m)
    (hfresh : (messages.getLast?).map Turn.role ≠ some "assistant") :
    (((chatCompletionHandler selId models system messages true chunks
          (fun _ => false)).messages.getLast?).map Turn.content)
      = some (concatElide "" (streamFragments chunks)) := by
  rw [chatCompletionHandler_ok _ _ m _ _ _ _ hsel hm, appendTarget_fresh _ hfresh]
  simp [List.getLast?_concat, runLoop_noStop_content]

/-- Witness for the amended C1 at concrete inputs. -/
theorem c1_ordering_witness :
    (((chatCompletionHandler "m" [ModelEntry.mk "m" "M"] "" [Turn.mk "user" "q"]
          true [[Line.frag (some "he"), Line.frag none], [Line.frag (some "y")]]
          (fun _ => false)).messages.getLast?).map Turn.content)
      = some (concatElide ""
          (streamFragments [[Line.frag (some "he"), Line.frag none],
            [Line.frag (some "y")]])) :=
  c1_ordering "m" [ModelEntry.mk "m" "M"] (ModelEntry.mk "m" "M") ""
    [Turn.mk "user" "q"] [[Line.frag (some "he"), Line.frag none], [Line.frag (some "y")]]
    (by decide) rfl (by decide)

/-- C10: in every execution, all turns other than the target (last) turn
are left unchanged — the result's turns minus the last are either the
input minus its last turn (target reused, or nothing streamed) or exactly
the input (fresh target appended) — a reused assistant turn's content only
grows by appending at its end, and at every chunk boundary the content
held so far is a prefix of the content held after the next chunk. -/
theorem c10_turn_invariant (selId : String) (models : List ModelEntry)
    (system : String) (messages : List Turn) (resOk : Bool) (chunks : List Chunk)
    (stop : Nat → Bool) :
    ((chatCompletionHandler selId models system messages resOk chunks stop).messages.dropLast
        = messages.dropLast ∨
      (chatCompletionHandler selId models system messages resOk chunks stop).messages.dropLast
        = messages) ∧
    (∀ t, messages.getLast? = some t → t.role = "assistant" →
      ∃ s, (chatCompletionHandler selId models system messages resOk chunks
              stop).messages.getLast?
          = some (Turn.mk "assistant" (t.content ++ s))) ∧
    (∀ n, ∃ s,
      (runLoop stop 0 ((((appendTarget messages).getLast?).map Turn.content).getD "") 0
          (chunks.take (n + 1))).1
        = (runLoop stop 0 ((((appendTarget messages).getLast?).map Turn.content).getD "") 0
          (chunks.take n)).1 ++ s) := by
  refine ⟨?_, ?_, fun n => runLoop_take_mono n chunks stop 0 _ 0⟩
  all_goals
    by_cases hsel : selId = ""
  case pos =>
    subst hsel
    rw [chatCompletionHandler_emptyId]
    exact Or.inl rfl
  case neg =>
    cases hfind : models.find? (fun x => x.id == selId) with
    | none =>
      rw [chatCompletionHandler_unknownId _ _ _ _ _ _ _ hsel hfind]
      exact Or.inl rfl
    | some m =>
      by_cases hreuse : (messages.getLast?).map Turn.role = some "assistant"
      · cases resOk with
        | false =>
          rw [chatCompletionHandler_notOk _ _ m _ _ _ _ hsel hfind,
            appendTarget_reuse _ hreuse]
          exact Or.inl rfl
        | true =>
          rw [chatCompletionHandler_ok _ _ m _ _ _ _ hsel hfind,
            appendTarget_reuse _ hreuse]
          exact Or.inl (by rw [List.dropLast_concat])
      · cases resOk with
        | false =>
          rw [chatCompletionHandler_notOk _ _ m _ _ _ _ hsel hfind,
            appendTarget_fresh _ hreuse]
          exact Or.inr (by rw [List.dropLast_concat])
        | true =>
          rw [chatCompletionHandler_ok _ _ m _ _ _ _ hsel hfind,
            appendTarget_fresh _ hreuse]
          exact Or.inr (by rw [List.dropLast_concat, List.dropLast_concat])
  case pos =>
    subst hsel
    intro t ht hrole
    rw [chatCompletionHandler_emptyId]
    refine ⟨"", ?_⟩
    cases t with
    | mk r c =>
      simp only at hrole
      subst hrole
      simp [ht]
  case neg =>
    intro t ht hrole
    have hreuse : (messages.getLast?).map Turn.role = some "assistant" := by
      rw [ht]
      simp [hrole]
    cases hfind : models.find? (fun x => x.id == selId) with
    | none =>
      rw [chatCompletionHandler_unknownId _ _ _ _ _ _ _ hsel hfind]
      refine ⟨"", ?_⟩
      cases t with
      | mk r c =>
        simp only at hrole
        subst hrole
        simp [ht]
    | some m =>
      cases resOk with
      | false =>
        rw [chatCompletionHandler_notOk _ _ m _ _ _ _ hsel hfind,
          appendTarget_reuse _ hreuse]
        refine ⟨"", ?_⟩
        cases t with
        | mk r c =>
          simp only at hrole
          subst hrole
          simp [ht]
      | true =>
        rw [chatCompletionHandler_ok _ _ m _ _ _ _ hsel hfind,
          appendTarget_reuse _ hreuse]
        obtain ⟨s, hs⟩ := runLoop_extends chunks stop 0
          (((messages.getLast?).map Turn.content).getD "") 0
        refine ⟨s, ?_⟩
        rw [List.getLast?_concat, hs, ht]
        simp

/-- Witness for C10 at concrete inputs: a pre-seeded assistant turn only
grows, and the content after one chunk extends the content before it. -/
theorem c10_turn_invariant_witness :
    ((chatCompletionHandler "m" [ModelEntry.mk "m" "M"] "" [Turn.mk "assistant" "x"]
          true [[Line.frag (some "y")]] (fun _ => false)).messages.dropLast
        = ([Turn.mk "assistant" "x"] : List Turn).dropLast ∨
      (chatCompletionHandler "m" [ModelEntry.mk "m" "M"] "" [Turn.mk "assistant" "x"]
          true [[Line.frag (some "y")]] (fun _ => false)).messages.dropLast
        = [Turn.mk "assistant" "x"]) ∧
    (∃ s, (chatCompletionHandler "m" [ModelEntry.mk "m" "M"] "" [Turn.mk "assistant" "x"]
          true [[Line.frag (some "y")]] (fun _ => false)).messages.getLast?
        = some (Turn.mk "assistant" ("x" ++ s))) ∧
    (∃ s,
      (runLoop (fun _ => false) 0
          ((((appendTarget [Turn.mk "assistant" "x"]).getLast?).map Turn.content).getD "") 0
          (([[Line.frag (some "y")]] : List Chunk).take 1)).1
        = (runLoop (fun _ => false) 0
          ((((appendTarget [Turn.mk "assistant" "x"]).getLast?).map Turn.content).getD "") 0
          (([[Line.frag (some "y")]] : List Chunk).take 0)).1 ++ s) := by
  have h := c10_turn_invariant "m" [ModelEntry.mk "m" "M"] "" [Turn.mk "assistant" "x"]
    true [[Line.frag (some "y")]] (fun _ => false)
  exact ⟨h.1, h.2.1 (Turn.mk "assistant" "x") rfl rfl, h.2.2 0⟩
